import Mathlib

/-!
Shallow embedding of `libmultipath/uevent.c` (multipath-tools): the uevent
queue engine.  Event records, the merge/filter engine (`merge_uevq` and its
helpers), the burst monitor (`uevent_burst`), the producer loop's timeout
handling (`uevent_listen`), the consumer shutdown path (`uevent_dispatch`),
record construction (`uevent_from_udev_device`) and the environment-variable
accessors (`uevent_get_env_var`, `uevent_get_env_positive_int`).

Strings are modelled by Lean `String` (logically a list of `Char`); C string
comparisons (`strcmp`, `strncmp`, `memcmp`) are modelled by the corresponding
list operations.  External collaborators (the devnode blacklist predicate, the
configured uid attribute lookup) are parameters.
-/

set_option autoImplicit false

set_option maxRecDepth 40000

namespace Uevent

/-- String constants used by the C code. -/
def addStr : String := "add"

def removeStr : String := "remove"

def changeStr : String := "change"

def dmStr : String := "dm-"

/-- `strncmp (k, "dm-", 3) == 0` holds exactly when the first three
characters of `k` are `dm-` (the pattern has length 3, so the bounded
comparison is a prefix test). -/
def dmHead (k : String) : Bool := List.isPrefixOf dmStr.data k.data

/-- `strncmp (a, "change", 6) == 0` holds exactly when the first six
characters of `a` are `change` (the pattern has length 6). -/
def changeHead (a : String) : Bool := List.isPrefixOf changeStr.data a.data

/-- An event record as the merge/filter engine sees it: `action`, `kernel`
and `wwid` are the fields the engine reads; `wsrc` is the value the
configured uid-attribute lookup would return for this record (the record's
environment is immutable, so this is a per-record constant); `merged` is the
`merge_node` list of absorbed records (oldest first). -/
inductive Uev : Type where
  | mk (action : String) (kernel : String) (wwid : Option String)
      (wsrc : Option String) (merged : List Uev)

def Uev.action : Uev → String
  | .mk a _ _ _ _ => a

def Uev.kernel : Uev → String
  | .mk _ k _ _ _ => k

def Uev.wwid : Uev → Option String
  | .mk _ _ w _ _ => w

def Uev.wsrc : Uev → Option String
  | .mk _ _ _ s _ => s

def Uev.merged : Uev → List Uev
  | .mk _ _ _ _ m => m

/-- `uevent_can_discard`: a `dm-` record is never discarded; otherwise the
external devnode filter predicate (parameter `d`, keyed by the kernel name)
decides. -/
def uevent_can_discard (d : String → Bool) (u : Uev) : Bool :=
  if dmHead u.kernel then false else d u.kernel

/-- `uevent_can_filter (earlier, later)`: the later event supersedes the
earlier one.  First rule: same kernel, later action `remove`, later kernel
not `dm-`.  Second rule: same kernel, earlier action `change`, later action
`add`, later kernel not `dm-`. -/
def uevent_can_filter (earlier later : Uev) : Bool :=
  (earlier.kernel == later.kernel && later.action == removeStr
      && !(dmHead later.kernel))
  || (earlier.kernel == later.kernel && earlier.action == changeStr
      && later.action == addStr && !(dmHead later.kernel))

/-- `merge_need_stop (earlier, later)`: stop the backward merge scan when the
later record is a `dm-` record, when either wwid is unresolved, or when the
two records carry the same wwid with different actions, neither of which is
exactly `"change"` (full `strcmp`). -/
def merge_need_stop (earlier later : Uev) : Bool :=
  if dmHead later.kernel then true
  else
    match earlier.wwid, later.wwid with
    | none, _ => true
    | _, none => true
    | some w1, some w2 =>
      w1 == w2 && earlier.action != later.action
        && earlier.action != changeStr && later.action != changeStr

/-- `uevent_can_merge (earlier, later)`: both wwids resolved and equal, equal
actions, the earlier action's first six characters are not `change`
(`strncmp (action, "change", 6)`), and the earlier kernel is not `dm-`. -/
def uevent_can_merge (earlier later : Uev) : Bool :=
  match earlier.wwid, later.wwid with
  | some w1, some w2 =>
    w1 == w2 && earlier.action == later.action
      && !(changeHead earlier.action) && !(dmHead earlier.kernel)
  | _, _ => false

/-- `uevent_get_wwid`: resolve a record's wwid from its environment; the
value is set only when the lookup succeeds (`if (val) uev->wwid = val`). -/
def uevent_get_wwid_model : Uev → Uev
  | .mk a k w s m =>
    .mk a k (match s with | some v => some v | none => w) s m

/-- `uevent_prepare`: drop every discardable record; for each surviving
non-`dm-` record, resolve its wwid when merging is configured.  The C loop
walks newest to oldest, but each record's treatment is independent, so the
order-preserving `filterMap` is the same function. -/
def uevent_prepare (d : String → Bool) (needMerge : Bool)
    (l : List Uev) : List Uev :=
  l.filterMap fun u =>
    if uevent_can_discard d u then none
    else if !(dmHead u.kernel) && needMerge then some (uevent_get_wwid_model u)
    else some u

/-- `uevent_merge` absorbs the collected children into the anchor's
`merge_node`.  Each `list_move` inserts at the head of `merge_node`, and the
children are collected scanning newest to oldest, so the collected list
(newest first) ends up reversed — oldest first — in front of any children the
anchor already carried. -/
def absorb : Uev → List Uev → Uev
  | .mk a k w s m, c => .mk a k w s (c.reverse ++ m)

/-- The backward scan of `uevent_merge` for one anchor `later`.  The input is
the list of strictly older records, newest first.  The scan stops at the
first record for which `merge_need_stop` holds, leaving the rest untouched;
before that, every record satisfying `uevent_can_merge` is moved out of the
batch and collected (in scan order, newest first).  Returns the surviving
older records (newest first) and the collected children (scan order). -/
def uevent_merge_scan (later : Uev) : List Uev → List Uev × List Uev
  | [] => ([], [])
  | e :: rest =>
    if merge_need_stop e later then (e :: rest, [])
    else if uevent_can_merge e later then
      let p := uevent_merge_scan later rest
      (p.1, e :: p.2)
    else
      let p := uevent_merge_scan later rest
      (e :: p.1, p.2)

/-- One anchor's `uevent_filter`: remove, from the strictly older records,
every record the anchor supersedes (the C loop has no `break`, so the whole
older segment is scanned). -/
def filterOlder (later : Uev) (older : List Uev) : List Uev :=
  older.filter fun e => !(uevent_can_filter e later)

/-- The anchor loop of `merge_uevq` (after `uevent_prepare`), on a
newest-first list, with explicit structural fuel: for each anchor, run
`uevent_filter`, then (when merging is configured) `uevent_merge`, then move
to the next older surviving record.  The fuel is only a termination device;
`l.length` is always enough. -/
def muGo (needMerge : Bool) : Nat → List Uev → List Uev
  | _, [] => []
  | 0, l => l
  | fuel + 1, later :: rest =>
    let rest1 := filterOlder later rest
    if needMerge then
      let p := uevent_merge_scan later rest1
      absorb later p.2 :: muGo needMerge fuel p.1
    else
      later :: muGo needMerge fuel rest1

/-- `merge_uevq` on an oldest-first batch: `uevent_prepare`, then the anchor
loop newest to oldest. -/
def merge_uevq (d : String → Bool) (needMerge : Bool) (l : List Uev) :
    List Uev :=
  (muGo needMerge (uevent_prepare d needMerge l).reverse.length
    (uevent_prepare d needMerge l).reverse).reverse

/-- The complete filter pass on a newest-first list (the spec's Pass 2 run to
completion before any merging): each anchor filters the older records, then
the next older surviving record becomes the anchor. -/
def fpGo : Nat → List Uev → List Uev
  | _, [] => []
  | 0, l => l
  | fuel + 1, later :: rest => later :: fpGo fuel (filterOlder later rest)

def filterPass (l : List Uev) : List Uev := fpGo l.length l

/-- The complete filter pass, also returning the removed records in removal
order (anchors newest to oldest; within an anchor, scan order newest to
oldest). -/
def fpGoRm : Nat → List Uev → List Uev × List Uev
  | _, [] => ([], [])
  | 0, l => (l, [])
  | fuel + 1, later :: rest =>
    let removedHere := rest.filter fun e => uevent_can_filter e later
    let p := fpGoRm fuel (filterOlder later rest)
    (later :: p.1, removedHere ++ p.2)

/-- The complete merge pass on a newest-first list (the spec's Pass 3 run
after the whole filter pass). -/
def mpGo : Nat → List Uev → List Uev
  | _, [] => []
  | 0, l => l
  | fuel + 1, later :: rest =>
    let p := uevent_merge_scan later rest
    absorb later p.2 :: mpGo fuel p.1

def mergePass (l : List Uev) : List Uev := mpGo l.length l

/-- The spec's sequential three-pass description of the engine (§4.5):
prepare, then the complete filter pass over the whole batch, and only then —
when merging is configured — the complete merge pass.  Input and output
oldest first. -/
def two_pass_engine_spec (d : String → Bool) (needMerge : Bool)
    (l : List Uev) : List Uev :=
  let l1 := (uevent_prepare d needMerge l).reverse
  let l2 := filterPass l1
  (if needMerge then mergePass l2 else l2).reverse

/-! ### Burst monitor (`uevent_burst`) -/

def MAX_ACCUMULATION_COUNT : Nat := 2048

def MAX_ACCUMULATION_TIME : Nat := 30 * 1000

def MIN_BURST_SPEED : Nat := 10

/-- `uevent_burst`, as a function of the event count and the elapsed
milliseconds since the window start (`eclipse_ms` in the C code, computed
from `gettimeofday`/`timersub`).  `events` is never negative at the call
site (`events + 1`), so `Nat` is faithful; the division is C unsigned
division, i.e. `Nat` division. -/
def uevent_burst (events : Nat) (elapsed_ms : Nat) : Bool :=
  if events > MAX_ACCUMULATION_COUNT then false
  else if elapsed_ms = 0 then true
  else if elapsed_ms > MAX_ACCUMULATION_TIME then false
  else if events * 1000 / elapsed_ms > MIN_BURST_SPEED then true
  else false

/-! ### Producer loop (`uevent_listen`): the poll-timeout protocol -/

/-- The listening loop's local state: the `timeout` variable (in the code's
unit, multiplied by 1000 before being handed to `poll`), the local event
counter, the local pending list `uevlisten_tmp`, and the shared queue
`uevq`. -/
structure ListenState where
  timeout : Nat
  events : Nat
  pending : List Uev
  uevq : List Uev

/-- The initial state: `int timeout = 30`, no events, empty lists. -/
def listenInit : ListenState := { timeout := 30, events := 0, pending := [], uevq := [] }

/-- The timeout in milliseconds handed to the next `poll` call:
`poll_timeout = timeout * 1000`. -/
def poll_timeout_ms (s : ListenState) : Nat := s.timeout * 1000

/-- Outcome of one `poll` call, as far as the loop body distinguishes them:
a readable descriptor from which a record was successfully constructed, a
timeout expiry (`fdcount == 0`), or an `EINTR` interruption. -/
inductive PollOutcome : Type where
  | received (u : Uev)
  | timedOut
  | interrupted

/-- One iteration of the `uevent_listen` body.  On a successful receive the
timeout becomes `1` or `0` (in the code's unit) according to
`uevent_burst (start_time, events + 1)` — `elapsed` is the oracle for the
milliseconds since `start_time` — and the record is appended to the local
pending list.  On a timeout expiry the pending list (if non-empty) is
spliced onto the shared queue's tail and the counter reset, and in either
case the timeout is reset to `30`.  `EINTR` changes nothing. -/
def listen_step (s : ListenState) (ev : PollOutcome) (elapsed : Nat) :
    ListenState :=
  match ev with
  | .received u =>
    { s with
      timeout := if uevent_burst (s.events + 1) elapsed then 1 else 0
      pending := s.pending ++ [u]
      events := s.events + 1 }
  | .timedOut =>
    if s.pending.isEmpty then { s with timeout := 30 }
    else
      { s with
        uevq := s.uevq ++ s.pending
        pending := []
        events := 0
        timeout := 30 }
  | .interrupted => s

/-! ### Consumer shutdown path (`uevent_dispatch`) -/

/-- `uevq_cleanup` walks a list and frees every record on it; the function
returns the records it releases (all of them). -/
def uevq_cleanup_model (l : List Uev) : List Uev := l

/-- Outcome of the consumer's exit path: which pending records get released
before `uevent_dispatch` returns, and which are still live but unreachable
(leaked). -/
structure DispatchExit where
  released : List Uev
  leaked : List Uev

/-- The final iteration of `uevent_dispatch` when no dispatch callback is
installed, starting from a shared queue holding `uevq`:
`list_splice_init (&uevq, &uevq_tmp)` moves everything into the local batch
and leaves the shared queue empty; `!my_uev_trigger` breaks out of the loop;
`uevq_cleanup (&uevq)` then releases what is left in the *shared* queue —
which the splice has just emptied — and the local `uevq_tmp` goes out of
scope without being released. -/
def uevent_dispatch_exit (uevq : List Uev) : DispatchExit :=
  let uevq_tmp := uevq
  let sharedAfterSplice : List Uev := []
  { released := uevq_cleanup_model sharedAfterSplice, leaked := uevq_tmp }

/-! ### Environment variables (`uevent_get_env_var`,
`uevent_get_env_positive_int`) -/

/-- One `envp` entry is a `name=value` character string; `attr` matches the
entry when `strlen (var) > len`, the first `len` characters equal `attr`,
and `var[len] == '='`; the value view is everything after the `'='`. -/
def envMatch (attr var : List Char) : Option (List Char) :=
  if List.isPrefixOf attr var then
    match var.drop attr.length with
    | c :: rest => if c == '=' then some rest else none
    | [] => none
  else none

/-- `uevent_get_env_var`: an empty attribute name is invalid; otherwise the
first matching `envp` entry's value is returned (the loop breaks at the
first match). -/
def uevent_get_env_var (envp : List (List Char)) (attr : List Char) :
    Option (List Char) :=
  if attr.isEmpty then none
  else envp.findSome? (envMatch attr)

def isSpaceC (c : Char) : Bool :=
  c == ' ' || c == '\t' || c == '\n' || c == '\x0b' || c == '\x0c' || c == '\r'

def isDigitC (c : Char) : Bool :=
  decide (48 ≤ c.toNat) && decide (c.toNat ≤ 57)

def digitVal (c : Char) : Nat := c.toNat - 48

/-- `ULONG_MAX` on the LP64 targets multipath-tools runs on. -/
def ulongMax : Nat := 2 ^ 64 - 1

/-- `strtoul (p, &q, 10)`: skip leading whitespace, accept one optional sign,
consume decimal digits.  If no digits were consumed, the result is `0` and
`q` is reset to the original `p` (no conversion).  On overflow the result is
clamped to `ULONG_MAX`; a leading minus negates the value in unsigned
arithmetic.  Returns the value and the rest of the string from `q`. -/
def strtoul10 (s : List Char) : Nat × List Char :=
  let s1 := s.dropWhile isSpaceC
  let p :=
    match s1 with
    | c :: r => if c == '-' then (true, r) else if c == '+' then (false, r) else (false, s1)
    | [] => (false, s1)
  let digs := p.2.takeWhile isDigitC
  let rest := p.2.dropWhile isDigitC
  if digs.isEmpty then (0, s)
  else
    let n := digs.foldl (fun a c => a * 10 + digitVal c) 0
    let v :=
      if n > ulongMax then ulongMax
      else if p.1 then (2 ^ 64 - n) % 2 ^ 64
      else n
    (v, rest)

/-- Conversion of the `unsigned long` result to `int` (the C code assigns
`strtoul`'s result to an `int`): two's-complement truncation to 32 bits, as
on the targets multipath-tools supports. -/
def toIntC (v : Nat) : Int :=
  let w : Nat := v % 2 ^ 32
  if w < 2 ^ 31 then (w : Int) else (w : Int) - 2 ^ 32

/-- `uevent_get_env_positive_int`: `-1` when the variable is missing or
empty; otherwise `ret = strtoul (p, &q, 10)` (assigned to an `int`), and
`-1` when `*q != '\0'` or `ret < 0`, else `ret`. -/
def uevent_get_env_positive_int (envp : List (List Char)) (attr : List Char) :
    Int :=
  match uevent_get_env_var envp attr with
  | none => -1
  | some p =>
    if p.isEmpty then -1
    else
      let r := strtoul10 p
      let ret := toIntC r.1
      if !(r.2.isEmpty) || ret < 0 then -1 else ret

def intMax : Nat := 2 ^ 31 - 1

/-- The return value claimed by the spec sentence under review (C10): `-1`
exactly when the property is absent, its value is empty, its value contains
any character after the leading decimal digits, or the parsed value does not
fit as a non-negative `int`; otherwise the non-negative integer the value
denotes. -/
def c10_claimed_result (envp : List (List Char)) (attr : List Char) : Int :=
  match uevent_get_env_var envp attr with
  | none => -1
  | some p =>
    if p.isEmpty then -1
    else
      let digs := p.takeWhile isDigitC
      let rest := p.dropWhile isDigitC
      if !(rest.isEmpty) then -1
      else
        let n := digs.foldl (fun a c => a * 10 + digitVal c) 0
        if n ≤ intMax then (n : Int) else -1

/-! ### Record construction (`uevent_from_udev_device`) -/

def devpathKey : String := "DEVPATH"

def actionKey : String := "ACTION"

/-- A freshly constructed record, before the merge engine touches it.
`kernel` is genuinely optional: `strrchr (devpath, '/')` can fail. -/
structure RawUev where
  envp : List String
  devpath : String
  action : String
  kernel : Option String

/-- The property loop overwrites `uev->devpath` / `uev->action` on every
occurrence of the key, so the last occurrence wins. -/
def lastVal (k : String) (props : List (String × String)) : Option String :=
  props.foldl (fun acc p => if p.1 == k then some p.2 else acc) none

/-- The characters after the last `'/'`, or `none` when there is no `'/'`
(`strrchr` returns `NULL` and `uev->kernel` stays null). -/
def afterLastSlash (cs : List Char) : Option (List Char) :=
  if cs.contains '/' then
    some ((cs.reverse.takeWhile fun c => !(c == '/')).reverse)
  else none

def kernelFromDevpath (d : String) : Option String :=
  (afterLastSlash d.data).map String.mk

/-- `uevent_from_udev_device`, given the device's ordered property list:
each pair is serialised as `name=value` into `envp`; `devpath` and `action`
are taken from the `DEVPATH` / `ACTION` properties (the value part of the
serialised entry) and construction fails when either is missing; `kernel` is
derived from `devpath` by `strrchr (devpath, '/')`.  The fixed arena
capacity and the `HOTPLUG_NUM_ENVP` cap (byte-level truncation) are
abstracted: every property fits. -/
def uevent_from_udev_device (props : List (String × String)) :
    Option RawUev :=
  let envp := props.map fun p => p.1 ++ eqSign ++ p.2
  match lastVal devpathKey props, lastVal actionKey props with
  | some d, some a =>
    some { envp := envp, devpath := d, action := a,
           kernel := kernelFromDevpath d }
  | _, _ => none
where eqSign : String := "="

/-- Handing a raw record to the merge engine requires a non-null `kernel`:
every engine predicate starts with `strncmp (uev->kernel, "dm-", 3)`, which
dereferences it.  The conversion is total only on records whose `devpath`
contains a `'/'`. -/
def toEngine (r : RawUev) : Option Uev :=
  match r.kernel with
  | some k => some (.mk r.action k none none [])
  | none => none

/-! ### General lemmas about the engine -/

/-- With merging unconfigured, the anchor loop is exactly the filter pass:
`uevent_merge` is never called, and `uevent_filter` runs anchor by anchor. -/
theorem muGo_false_eq_fpGo (fuel : Nat) :
    ∀ l : List Uev, muGo false fuel l = fpGo fuel l := by
  induction fuel with
  | zero => intro l; cases l <;> rfl
  | succ f ih =>
    intro l
    cases l with
    | nil => rfl
    | cons a rest => simp only [muGo, fpGo, if_neg Bool.false_ne_true, ih]

theorem length_filterOlder_le (later : Uev) (l : List Uev) :
    (filterOlder later l).length ≤ l.length :=
  List.length_filter_le _ l

/-- The fuel argument of the filter pass is irrelevant once it covers the
list's length. -/
theorem fpGo_fuel_irrel :
    ∀ f1 f2 : Nat, ∀ l : List Uev, l.length ≤ f1 → l.length ≤ f2 →
      fpGo f1 l = fpGo f2 l := by
  intro f1
  induction f1 with
  | zero =>
    intro f2 l h1 _
    have : l = [] := List.eq_nil_of_length_eq_zero (Nat.le_zero.mp h1)
    subst this
    cases f2 <;> rfl
  | succ f ih =>
    intro f2 l h1 h2
    cases l with
    | nil => cases f2 <;> rfl
    | cons a rest =>
      cases f2 with
      | zero => exact absurd h2 (by simp)
      | succ g =>
        simp only [fpGo]
        have hr : rest.length ≤ f := Nat.le_of_succ_le_succ h1
        have hg : rest.length ≤ g := Nat.le_of_succ_le_succ h2
        exact congrArg _ (ih g (filterOlder a rest)
          (Nat.le_trans (length_filterOlder_le a rest) hr)
          (Nat.le_trans (length_filterOlder_le a rest) hg))

theorem filterPass_cons (a : Uev) (rest : List Uev) :
    filterPass (a :: rest) = a :: filterPass (filterOlder a rest) := by
  simp only [filterPass, List.length_cons, fpGo]
  exact congrArg _ (fpGo_fuel_irrel rest.length (filterOlder a rest).length
    (filterOlder a rest) (length_filterOlder_le a rest) (Nat.le_refl _))

/-- The filter pass only ever deletes records. -/
theorem fpGo_sublist : ∀ fuel : Nat, ∀ l : List Uev, List.Sublist (fpGo fuel l) l := by
  intro fuel
  induction fuel with
  | zero => intro l; cases l <;> simp [fpGo]
  | succ f ih =>
    intro l
    cases l with
    | nil => simp [fpGo]
    | cons a rest =>
      simp only [fpGo]
      exact List.Sublist.cons₂ a
        ((ih (filterOlder a rest)).trans (List.filter_sublist rest))

theorem filterPass_sublist (l : List Uev) : List.Sublist (filterPass l) l :=
  fpGo_sublist l.length l

/-- After the filter pass, no surviving record can still be filtered by a
newer surviving record: the output is pairwise unfilterable (the list is
newest first, so the anchor comes first). -/
theorem fpGo_pairwise :
    ∀ fuel : Nat, ∀ l : List Uev, l.length ≤ fuel →
      (fpGo fuel l).Pairwise
        (fun later earlier => uevent_can_filter earlier later = false) := by
  intro fuel
  induction fuel with
  | zero =>
    intro l h
    have : l = [] := List.eq_nil_of_length_eq_zero (Nat.le_zero.mp h)
    subst this
    simp [fpGo]
  | succ f ih =>
    intro l h
    cases l with
    | nil => simp [fpGo]
    | cons a rest =>
      simp only [fpGo, List.pairwise_cons]
      have hr : rest.length ≤ f := Nat.le_of_succ_le_succ h
      refine ⟨?_, ih (filterOlder a rest)
        (Nat.le_trans (length_filterOlder_le a rest) hr)⟩
      intro e he
      have : e ∈ filterOlder a rest :=
        (fpGo_sublist f (filterOlder a rest)).subset he
      have := (List.mem_filter.mp this).2
      simpa using this

/-- A pairwise-unfilterable batch is a fixpoint of the filter pass. -/
theorem fpGo_of_pairwise :
    ∀ fuel : Nat, ∀ l : List Uev, l.length ≤ fuel →
      l.Pairwise (fun later earlier => uevent_can_filter earlier later = false) →
      fpGo fuel l = l := by
  intro fuel
  induction fuel with
  | zero =>
    intro l h _
    have : l = [] := List.eq_nil_of_length_eq_zero (Nat.le_zero.mp h)
    subst this; rfl
  | succ f ih =>
    intro l h hp
    cases l with
    | nil => rfl
    | cons a rest =>
      rw [List.pairwise_cons] at hp
      have hrest : filterOlder a rest = rest := by
        apply List.filter_eq_self.mpr
        intro e he
        simpa using hp.1 e he
      simp only [fpGo, hrest]
      exact congrArg _ (ih rest (Nat.le_of_succ_le_succ h) hp.2)

/-- The filter pass is idempotent. -/
theorem filterPass_idem (l : List Uev) :
    filterPass (filterPass l) = filterPass l :=
  fpGo_of_pairwise (filterPass l).length (filterPass l) (Nat.le_refl _)
    (fpGo_pairwise l.length l (Nat.le_refl _))

/-- With merging unconfigured, `uevent_prepare` is the discard filter. -/
theorem prepare_false (d : String → Bool) :
    ∀ l : List Uev, uevent_prepare d false l =
      l.filter fun u => !(uevent_can_discard d u) := by
  intro l
  induction l with
  | nil => rfl
  | cons u t ih =>
    simp only [uevent_prepare, List.filterMap_cons, Bool.and_false,
      Bool.false_eq_true, if_false, List.filter_cons] at *
    cases h : uevent_can_discard d u <;> simp [h, ih]

/-- `merge_uevq` with merging unconfigured, written as discard filter plus
filter pass. -/
theorem merge_uevq_false (d : String → Bool) (l : List Uev) :
    merge_uevq d false l =
      (filterPass ((l.filter fun u => !(uevent_can_discard d u)).reverse)).reverse := by
  simp only [merge_uevq, prepare_false, muGo_false_eq_fpGo, filterPass]

/-- The backward merge scan collects exactly the mergeable records among
those reached before the stop rule fires. -/
theorem merge_scan_collected (later : Uev) :
    ∀ older : List Uev,
      (uevent_merge_scan later older).2 =
        (older.takeWhile fun e => !(merge_need_stop e later)).filter
          fun e => uevent_can_merge e later := by
  intro older
  induction older with
  | nil => rfl
  | cons e rest ih =>
    by_cases hs : merge_need_stop e later
    · simp [uevent_merge_scan, hs, List.takeWhile_cons]
    · by_cases hm : uevent_can_merge e later
      · simp [uevent_merge_scan, hs, hm, List.takeWhile_cons, List.filter_cons, ih]
      · simp [uevent_merge_scan, hs, hm, List.takeWhile_cons, List.filter_cons, ih]

/-! ### Concrete records used by the claim theorems -/

def noDiscard : String → Bool := fun _ => false

def c1_uev : Uev := .mk addStr "sda" none none []

def c2_uev : Uev := .mk addStr "sdb" none none []

def c3_early : Uev := .mk addStr "sda" (some "W") none []

def c3_mid : Uev := .mk removeStr "sda" (some "V") none []

def c3_late : Uev := .mk addStr "sdb" (some "W") none []

def c3_batch : List Uev := [c3_early, c3_mid, c3_late]

def c4_earlier : Uev := .mk "changed" "sda" (some "W") none []

def c4_later : Uev := .mk "changed" "sdb" (some "W") none []

def c5_rm1 : Uev := .mk removeStr "p1" (some "W") none []

def c5_add1 : Uev := .mk addStr "p1" (some "W") none []

def c5_add2 : Uev := .mk addStr "p2" (some "W") none []

def c6_add1 : Uev := .mk addStr "p1" none none []

def c6_chg1 : Uev := .mk changeStr "p1" none none []

def c6_add2 : Uev := .mk addStr "p2" none none []

def c6_rm1 : Uev := .mk removeStr "p1" none none []

def c6_batch : List Uev := [c6_add1, c6_chg1, c6_add2, c6_rm1]

def c8_m : Uev := .mk addStr "sda" (some "W") none []

def c8_s : Uev := .mk removeStr "sdc" (some "W") none []

def c8_b : Uev := .mk removeStr "sdc" (some "V") none []

def c8_a : Uev := .mk addStr "sdb" (some "W") none []

def c8_batch : List Uev := [c8_m, c8_s, c8_b, c8_a]

def c9_noslash_props : List (String × String) :=
  [(devpathKey, "abc"), (actionKey, addStr)]

def c9_noslash_rec : RawUev :=
  { envp := ["DEVPATH=abc", "ACTION=add"], devpath := "abc",
    action := addStr, kernel := none }

def c9_slash_props : List (String × String) :=
  [(devpathKey, "/devices/pci/sda"), (actionKey, addStr)]

def c9_slash_rec : RawUev :=
  { envp := ["DEVPATH=/devices/pci/sda", "ACTION=add"],
    devpath := "/devices/pci/sda", action := addStr, kernel := some "sda" }

def c10_env_plus : String := "FOO=+5"

def c10_attr : String := "FOO"

def c10_env_num : String := "NUM=42"

def c10_attr_num : String := "NUM"

def c10_val_num : String := "42"

/-! ### Claim theorems -/

/-- C7: the burst decision `uevent_burst` returns false for any event count
strictly greater than 2048 regardless of elapsed time; for counts at most
2048 it returns true when the elapsed milliseconds are 0, false when they
exceed 30000, and otherwise true iff the integer quotient
`events * 1000 / elapsed` is strictly greater than 10. -/
theorem uevent_burst_spec (events elapsed : Nat) :
    (MAX_ACCUMULATION_COUNT < events → uevent_burst events elapsed = false)
    ∧ (events ≤ MAX_ACCUMULATION_COUNT → elapsed = 0 →
        uevent_burst events elapsed = true)
    ∧ (events ≤ MAX_ACCUMULATION_COUNT → MAX_ACCUMULATION_TIME < elapsed →
        uevent_burst events elapsed = false)
    ∧ (events ≤ MAX_ACCUMULATION_COUNT → 0 < elapsed →
        elapsed ≤ MAX_ACCUMULATION_TIME →
        (uevent_burst events elapsed = true ↔
          MIN_BURST_SPEED < events * 1000 / elapsed)) := by
  unfold uevent_burst MAX_ACCUMULATION_COUNT MAX_ACCUMULATION_TIME
    MIN_BURST_SPEED
  refine ⟨?_, ?_, ?_, ?_⟩ <;> intros <;> split_ifs <;> simp_all <;> omega

/-- C7 witness: the four regimes at concrete inputs. -/
theorem uevent_burst_spec_cases :
    uevent_burst 2049 500 = false ∧ uevent_burst 100 0 = true
    ∧ uevent_burst 100 30001 = false
    ∧ (uevent_burst 5 400 = true ↔ MIN_BURST_SPEED < 5 * 1000 / 400) :=
  ⟨(uevent_burst_spec 2049 500).1 (by decide),
   (uevent_burst_spec 100 0).2.1 (by decide) rfl,
   (uevent_burst_spec 100 30001).2.2.1 (by decide) (by decide),
   (uevent_burst_spec 5 400).2.2.2 (by decide) (by decide) (by decide)⟩

/-- Unfolding the receive branch of `listen_step`: the next poll timeout in
milliseconds is the new `timeout` value times 1000. -/
theorem listen_step_received_ms (s : ListenState) (u : Uev) (elapsed : Nat) :
    poll_timeout_ms (listen_step s (.received u) elapsed) =
      (if uevent_burst (s.events + 1) elapsed then 1 else 0) * 1000 := rfl

/-- Unfolding the timeout-expiry branch of `listen_step`. -/
theorem listen_step_timedOut_eq (s : ListenState) (elapsed : Nat) :
    listen_step s .timedOut elapsed =
      (if s.pending.isEmpty then { s with timeout := 30 }
       else { s with uevq := s.uevq ++ s.pending, pending := [],
                     events := 0, timeout := 30 }) := rfl

theorem ptm30 (t : ListenState) (ht : t.timeout = 30) :
    poll_timeout_ms t = 30000 := by
  unfold poll_timeout_ms
  rw [ht]

/-- Whether or not a hand-off happens on a timeout expiry, the new `timeout`
value is 30, so the next poll timeout is 30000 ms. -/
theorem listen_step_timedOut_ms (s : ListenState) (elapsed : Nat) :
    poll_timeout_ms (listen_step s .timedOut elapsed) = 30000 := by
  rw [listen_step_timedOut_eq]
  cases hp : s.pending.isEmpty
  · rw [if_neg Bool.false_ne_true]
    exact ptm30 _ rfl
  · rw [if_pos rfl]
    exact ptm30 _ rfl

theorem ite_timeout_ms (b : Bool) :
    ((if b then 1 else 0 : Nat)) * 1000 = if b then 1000 else 0 := by
  cases b <;> rfl

/-- C1 counterexample: after a successful receive with the burst monitor
saying "keep accumulating", the next poll call gets a timeout of 1000
milliseconds (the code's `timeout = 1` is in seconds and is multiplied by
1000), not 1 millisecond as claimed. -/
theorem uevent_listen_poll_timeout_cex :
    uevent_burst 1 0 = true
    ∧ poll_timeout_ms (listen_step listenInit (.received c1_uev) 0) = 1000
    ∧ ¬(poll_timeout_ms (listen_step listenInit (.received c1_uev) 0) = 1) := by
  have h1000 : poll_timeout_ms (listen_step listenInit (.received c1_uev) 0)
      = 1000 := rfl
  exact ⟨rfl, h1000, fun hc => by omega⟩

/-- C1 amended: after an event is successfully received and appended to the
pending list, the timeout passed to the next poll call is 1000 ms (1 second)
if the burst monitor says to keep accumulating and 0 ms (non-blocking)
otherwise; after a hand-off (or an empty timeout expiry) the poll timeout is
reset to 30000 ms (30 seconds); an `EINTR` leaves it unchanged. -/
theorem uevent_listen_poll_timeout (s : ListenState) (u : Uev)
    (elapsed : Nat) :
    poll_timeout_ms (listen_step s (.received u) elapsed) =
      (if uevent_burst (s.events + 1) elapsed then 1000 else 0)
    ∧ poll_timeout_ms (listen_step s .timedOut elapsed) = 30000
    ∧ poll_timeout_ms (listen_step s .interrupted elapsed) =
        poll_timeout_ms s := by
  refine ⟨?_, ?_, rfl⟩
  · rw [listen_step_received_ms, ite_timeout_ms]
  · exact listen_step_timedOut_ms s elapsed

/-- C2: with the dispatch callback unset and one record pending in the
shared queue, the exit path of `uevent_dispatch` releases nothing: the
splice has emptied the shared queue before `uevq_cleanup (&uevq)` runs, and
the spliced local batch is dropped without being released.  The claim (and
the spec's shutdown requirement) say the pending record must be released. -/
theorem uevent_dispatch_shutdown_leak :
    (uevent_dispatch_exit [c2_uev]).released = []
    ∧ (uevent_dispatch_exit [c2_uev]).leaked = [c2_uev] :=
  ⟨rfl, rfl⟩

/-- C3 counterexample: on the batch `[add sda (W), remove sda (V),
add sdb (W)]` with merging configured, the code's per-anchor interleaving
merges `add sda` into `add sdb` before the older anchor `remove sda` can
filter it (interleaved result: `add sdb` carries one merged child), while
the two-full-pass description filters `add sda` away first (merged list
empty): the two results differ. -/
theorem merge_uevq_two_pass_cex :
    merge_uevq noDiscard true c3_batch ≠
      two_pass_engine_spec noDiscard true c3_batch := by
  intro h
  exact absurd (congrArg (List.map fun u => (Uev.merged u).length) h)
    (by decide)

/-- C3 amended: the per-anchor interleaving of filter and merge equals the
two-full-pass description whenever merging is not configured (then both are
exactly the complete filter pass); with merging configured the two can
differ. -/
theorem merge_uevq_two_pass_noMerge (d : String → Bool) (l : List Uev) :
    merge_uevq d false l = two_pass_engine_spec d false l := by
  simp only [merge_uevq, two_pass_engine_spec, filterPass,
    muGo_false_eq_fpGo, Bool.false_eq_true, if_false]

/-- C4 counterexample: two records with action `"changed"` — equal, not
equal to `"change"` — with equal resolved wwids and a non-`dm-` earlier
kernel are reached by the backward scan without the stop rule firing, yet
are not merged: `uevent_can_merge` uses `strncmp (action, "change", 6)`,
which also rejects every action merely *starting* with `change`. -/
theorem uevent_can_merge_changed_cex :
    merge_need_stop c4_earlier c4_later = false
    ∧ c4_earlier.wwid = some "W"
    ∧ c4_later.wwid = some "W"
    ∧ c4_earlier.action = c4_later.action
    ∧ ¬(c4_earlier.action = changeStr)
    ∧ dmHead c4_earlier.kernel = false
    ∧ uevent_can_merge c4_earlier c4_later = false
    ∧ (uevent_merge_scan c4_later [c4_earlier]).2 = [] := by
  refine ⟨rfl, rfl, rfl, rfl, by decide, rfl, rfl, rfl⟩

/-- C4 amended: a record reached by the backward merge scan before the stop
rule fires is merged exactly when both wwids are resolved and equal, the
actions are equal, the earlier action does not *start with* `"change"`
(`strncmp` with length 6, so e.g. `"changed"` is excluded), and the earlier
kernel does not start with `dm-`. -/
theorem uevent_merge_characterization :
    (∀ later : Uev, ∀ older : List Uev,
      (uevent_merge_scan later older).2 =
        (older.takeWhile fun e => !(merge_need_stop e later)).filter
          fun e => uevent_can_merge e later)
    ∧ (∀ earlier later : Uev,
        uevent_can_merge earlier later = true ↔
          ((∃ w, earlier.wwid = some w ∧ later.wwid = some w)
            ∧ earlier.action = later.action
            ∧ changeHead earlier.action = false
            ∧ dmHead earlier.kernel = false)) := by
  refine ⟨fun later older => merge_scan_collected later older, ?_⟩
  intro earlier later
  unfold uevent_can_merge
  cases he : earlier.wwid with
  | none => simp [he]
  | some w1 =>
    cases hl : later.wwid with
    | none => simp [he, hl]
    | some w2 =>
      simp only [Bool.and_eq_true, beq_iff_eq, Bool.not_eq_true',
        Option.some.injEq]
      constructor
      · rintro ⟨⟨⟨h1, h2⟩, h3⟩, h4⟩
        exact ⟨⟨w2, h1, rfl⟩, h2, h3, h4⟩
      · rintro ⟨⟨w, hw1, hw2⟩, h2, h3, h4⟩
        exact ⟨⟨⟨hw1.trans hw2.symm, h2⟩, h3⟩, h4⟩

/-- C5: on the batch `[remove p1 (W), add p1 (W), add p2 (W)]` with merging
configured, the stop rule fires when the backward scan from `add p2` reaches
`remove p1` (same wwid, different non-change actions), so `remove p1` is
neither filtered nor merged, and `add p1` is merged into `add p2`: the
output is `[remove p1, add p2]` with `add p2` carrying exactly the one
merged child `add p1`. -/
theorem merge_law_remove_add_add :
    merge_need_stop c5_rm1 c5_add2 = true
    ∧ uevent_can_merge c5_add1 c5_add2 = true
    ∧ uevent_can_filter c5_rm1 c5_add2 = false
    ∧ merge_uevq noDiscard true [c5_rm1, c5_add1, c5_add2] =
        [c5_rm1, Uev.mk addStr "p2" (some "W") none [c5_add1]] := by
  refine ⟨rfl, rfl, rfl, rfl⟩

/-- C6: on the batch `[add p1, change p1, add p2, remove p1]` (oldest first,
non-dm kernels, nothing discarded), the filter pass removes exactly
`add p1` and `change p1` — both removed by the anchor `remove p1` — and the
survivors are `[add p2, remove p1]` in that order; the full engine returns
the same survivors whether or not merging is configured. -/
theorem filter_law_add_change_add_remove :
    fpGoRm c6_batch.reverse.length c6_batch.reverse =
        ([c6_rm1, c6_add2], [c6_chg1, c6_add1])
    ∧ merge_uevq noDiscard false c6_batch = [c6_add2, c6_rm1]
    ∧ merge_uevq noDiscard true c6_batch = [c6_add2, c6_rm1] := by
  refine ⟨rfl, rfl, rfl⟩

/-- C8 counterexample: on the batch `[add sda (W), remove sdc (W),
remove sdc (V), add sdb (W)]` with merging configured, the first run stops
the `add sdb` anchor's backward scan at `remove sdc (W)`, and a later anchor
then filters `remove sdc (W)` away; in the second run the scan no longer
stops there and merges `add sda` into `add sdb` — the second run is not a
no-op. -/
theorem merge_uevq_idem_cex :
    merge_uevq noDiscard true (merge_uevq noDiscard true c8_batch) ≠
      merge_uevq noDiscard true c8_batch := by
  intro h
  exact absurd (congrArg (List.map fun u => (Uev.merged u).length) h)
    (by decide)

/-- C8 amended: with merging not configured the engine is idempotent — a
second run of `merge_uevq` on the survivors of a first run discards and
filters nothing further.  (With merging configured, idempotence can fail.) -/
theorem merge_uevq_idem_noMerge (d : String → Bool) (l : List Uev) :
    merge_uevq d false (merge_uevq d false l) = merge_uevq d false l := by
  simp only [merge_uevq_false]
  have hE : ∀ u ∈ (filterPass ((l.filter fun x =>
      !(uevent_can_discard d x)).reverse)).reverse,
      (!(uevent_can_discard d u)) = true := by
    intro u hu
    rw [List.mem_reverse] at hu
    have h2 := (filterPass_sublist _).subset hu
    rw [List.mem_reverse] at h2
    exact (List.mem_filter.mp h2).2
  rw [List.filter_eq_self.mpr hE, List.reverse_reverse, filterPass_idem]

/-- C9: record construction can succeed with the kernel field unset — a
`DEVPATH` value without `'/'` yields a record whose `kernel` is null, which
the merge engine cannot accept (`strncmp (uev->kernel, "dm-", 3)` would
dereference null) — and whenever the devpath does contain a `'/'`, the
kernel field is set, so the engine's totality precondition is exactly that
every record's devpath contains a `'/'`. -/
theorem uevent_from_udev_device_kernel_nullable :
    uevent_from_udev_device c9_noslash_props = some c9_noslash_rec
    ∧ c9_noslash_rec.kernel = none
    ∧ toEngine c9_noslash_rec = none
    ∧ (∀ props : List (String × String), ∀ r : RawUev,
        uevent_from_udev_device props = some r →
        r.devpath.data.contains '/' = true → r.kernel.isSome = true) := by
  refine ⟨rfl, rfl, rfl, ?_⟩
  intro props r h hc
  unfold uevent_from_udev_device at h
  cases hd : lastVal devpathKey props with
  | none => rw [hd] at h; simp at h
  | some dvalue =>
    cases ha : lastVal actionKey props with
    | none => rw [hd, ha] at h; simp at h
    | some avalue =>
      rw [hd, ha] at h
      have he := Option.some.inj h
      subst he
      simp only [RawUev.kernel, RawUev.devpath] at hc ⊢
      have hm : '/' ∈ dvalue.data := by simpa using hc
      simp [kernelFromDevpath, afterLastSlash, hm]

/-- C9 witness: a devpath with a `'/'` yields a set kernel field. -/
theorem uevent_from_udev_device_kernel_nullable_w :
    (RawUev.kernel c9_slash_rec).isSome = true :=
  uevent_from_udev_device_kernel_nullable.2.2.2 c9_slash_props c9_slash_rec
    rfl rfl

/-- C10 counterexample: for the property value `"+5"` the claim demands `-1`
(the value contains characters other than leading decimal digits), but
`strtoul` accepts an optional sign, so the code returns `5`. -/
theorem uevent_get_env_positive_int_cex :
    uevent_get_env_positive_int [c10_env_plus.data] c10_attr.data = 5
    ∧ c10_claimed_result [c10_env_plus.data] c10_attr.data = -1 :=
  ⟨rfl, rfl⟩

/-- C10 amended: `uevent_get_env_positive_int` returns `-1` exactly when the
named property is absent, its value is empty, `strtoul`'s parse (optional
leading whitespace, optional sign, decimal digits) leaves any character
unconsumed, or the parsed value converted to `int` is negative; otherwise it
returns that converted value. -/
theorem uevent_get_env_positive_int_spec (envp : List (List Char))
    (attr : List Char) :
    (uevent_get_env_positive_int envp attr = -1 ↔
      uevent_get_env_var envp attr = none
      ∨ ∃ p, uevent_get_env_var envp attr = some p
          ∧ (p = [] ∨ ¬((strtoul10 p).2 = []) ∨ toIntC (strtoul10 p).1 < 0))
    ∧ (∀ p : List Char, uevent_get_env_var envp attr = some p → ¬(p = []) →
        (strtoul10 p).2 = [] → 0 ≤ toIntC (strtoul10 p).1 →
        uevent_get_env_positive_int envp attr = toIntC (strtoul10 p).1) := by
  cases hv : uevent_get_env_var envp attr with
  | none =>
    constructor
    · simp [uevent_get_env_positive_int, hv]
    · intro p hp
      exact absurd hp (by simp)
  | some p =>
    constructor
    · simp only [uevent_get_env_positive_int, hv, Option.some.injEq]
      cases p with
      | nil => simp
      | cons c cs =>
        simp only [List.isEmpty_cons, Bool.false_eq_true, if_false]
        rcases hr : strtoul10 (c :: cs) with ⟨v, rest⟩
        cases rest with
        | nil =>
          by_cases hneg : toIntC v < 0
          · simp [hr, hneg]
          · have hne1 : ¬(toIntC v = -1) := by omega
            simp [hr, hneg, hne1]
        | cons d ds => simp [hr]
    · intro p' hp' hne hrest hpos
      have hpp : p = p' := Option.some.inj hp'
      subst hpp
      simp only [uevent_get_env_positive_int, hv]
      cases p with
      | nil => exact absurd rfl hne
      | cons c cs =>
        have hlt : ¬(toIntC (strtoul10 (c :: cs)).1 < 0) := not_lt.mpr hpos
        simp only [List.isEmpty_cons, Bool.false_eq_true, if_false]
        simp [hrest, hlt]

/-- C10 witness: a plain decimal value is parsed and returned. -/
theorem uevent_get_env_positive_int_spec_w :
    uevent_get_env_positive_int [c10_env_num.data] c10_attr_num.data =
      toIntC (strtoul10 c10_val_num.data).1 :=
  (uevent_get_env_positive_int_spec [c10_env_num.data] c10_attr_num.data).2
    c10_val_num.data rfl (by decide) rfl (by decide)

end Uevent
